import Mathlib

/-!
Shallow embedding of `src/svg_to_pdf.py`: a converter that renders a
collection of per-page SVG files to PDF pages in parallel worker
processes and merges them into one output document.

Modelling conventions:
* Python `bytes` values are `List Nat` (the sequence of byte values);
  byte-string comparison `bytesLt` is Python's lexicographic order.
* Python `str` values (file names, regular-expression matches) are `String`.
* The external rendering capability (`svg2rlg` + `renderPDF.drawToString`)
  is an abstract function `render : Bytes → Option Bytes`; `none` models
  any exception thrown by the adapter.
* The external merge capability (`PdfMerger.append`) is an abstract
  predicate `mergeOk : Bytes → Bool`; `false` models `merger.append`
  raising on that page's bytes.
* The compiled regular expression is an abstract function
  `findall : String → List String`, modelling `re.findall(pattern, name)`
  (matches in order of occurrence; the code takes the last one).
* `multiprocessing` concurrency is a small-step transition relation
  `WorkerStep` over a `JobState`; each worker's position in the loop body
  of `convert_svg_to_pdf` is a `WStatus`.
-/

/-- Python `bytes` modelled as the list of byte values. -/
abbrev Bytes := List Nat

/-- The constant `BLANK_PDF_PAGE` of `src/svg_to_pdf.py` (lines 16-29): the
byte values of the literal `b'''%PDF-1.4\n1 0 obj<<...>>...%%EOF'''`,
a fixed one-page blank A4 PDF used as the fallback page. -/
def BLANK_PDF_PAGE : Bytes :=
  [37, 80, 68, 70, 45, 49, 46, 52, 10, 49, 32, 48, 32, 111, 98, 106, 60, 60, 47, 84, 121, 112,
   101, 47, 67, 97, 116, 97, 108, 111, 103, 47, 80, 97, 103, 101, 115, 32, 50, 32, 48, 32, 82, 62,
   62, 101, 110, 100, 111, 98, 106, 10, 50, 32, 48, 32, 111, 98, 106, 60, 60, 47, 84, 121, 112,
   101, 47, 80, 97, 103, 101, 115, 47, 67, 111, 117, 110, 116, 32, 49, 47, 75, 105, 100, 115, 91,
   51, 32, 48, 32, 82, 93, 62, 62, 101, 110, 100, 111, 98, 106, 10, 51, 32, 48, 32, 111, 98, 106,
   60, 60, 47, 84, 121, 112, 101, 47, 80, 97, 103, 101, 47, 77, 101, 100, 105, 97, 66, 111, 120,
   91, 48, 32, 48, 32, 53, 57, 53, 46, 50, 55, 54, 32, 56, 52, 49, 46, 56, 57, 48, 93, 47, 80, 97,
   114, 101, 110, 116, 32, 50, 32, 48, 32, 82, 47, 82, 101, 115, 111, 117, 114, 99, 101, 115, 60,
   60, 62, 62, 62, 62, 101, 110, 100, 111, 98, 106, 10, 120, 114, 101, 102, 10, 48, 32, 52, 10,
   48, 48, 48, 48, 48, 48, 48, 48, 48, 48, 32, 54, 53, 53, 51, 53, 32, 102, 32, 10, 48, 48, 48,
   48, 48, 48, 48, 48, 48, 57, 32, 48, 48, 48, 48, 48, 32, 110, 32, 10, 48, 48, 48, 48, 48, 48,
   48, 48, 53, 50, 32, 48, 48, 48, 48, 48, 32, 110, 32, 10, 48, 48, 48, 48, 48, 48, 48, 49, 48,
   49, 32, 48, 48, 48, 48, 48, 32, 110, 32, 10, 116, 114, 97, 105, 108, 101, 114, 60, 60, 47, 83,
   105, 122, 101, 32, 52, 47, 82, 111, 111, 116, 32, 49, 32, 48, 32, 82, 62, 62, 10, 115, 116,
   97, 114, 116, 120, 114, 101, 102, 10, 49, 56, 54, 10, 37, 37, 69, 79, 70]

/-- Python's lexicographic comparison `a < b` on `bytes`: the first
differing byte decides; a strict prefix is smaller. -/
def bytesLt : Bytes → Bytes → Bool
  | [], [] => false
  | [], _ :: _ => true
  | _ :: _, [] => false
  | a :: as, b :: bs => a < b || (a == b && bytesLt as bs)

/-- Python tuple comparison `(i1, b1) <= (i2, b2)` on
`(page_number, pdf_content)` pairs, as used by `output_list.sort()`
(line 149): compare the integers first, then the byte strings.
`a <= b` is `¬ (b < a)` for the lexicographic tuple order. -/
def tupleLe (a b : Int × Bytes) : Bool :=
  a.1 < b.1 || (a.1 == b.1 && !(bytesLt b.2 a.2))

/-- Python whitespace stripped by `int(str)`. -/
def isPyWs (c : Char) : Bool :=
  c == ' ' || c == '\t' || c == '\n' || c == '\r' || c == '\x0b' || c == '\x0c'

/-- Numeric value of a run of decimal digit characters. -/
def digitsVal (ds : List Char) : Nat :=
  ds.foldl (fun a c => 10 * a + (c.toNat - 48)) 0

/-- Model of Python's `int(str)` (the call on line 105): strip surrounding
whitespace, allow one optional sign, then require a non-empty run of
decimal digits; any other shape raises `ValueError`, modelled as `none`.
(Underscore digit grouping accepted by CPython is not modelled; no input
in this development uses it.) -/
def pyInt (s : String) : Option Int :=
  let core : List Char → Option Nat := fun ds =>
    if ds ≠ [] ∧ ds.all Char.isDigit then some (digitsVal ds) else none
  match ((s.data.dropWhile isPyWs).reverse.dropWhile isPyWs).reverse with
  | '+' :: ds => (core ds).map Int.ofNat
  | '-' :: ds => (core ds).map (fun n => -(n : Int))
  | ds => (core ds).map Int.ofNat

/-- The exceptions `process_files` can raise: `TypeError` from line 128
(path neither directory nor zip archive) and `ValueError` propagating
out of `int()` on line 105. -/
inductive PFError where
  | typeError
  | valueError
deriving DecidableEq, Repr

/-- The helper `page_number` (lines 93-109): take the last match of the
pattern in the file name and parse it with `int`. `[-1]` on an empty
match list raises `IndexError`, which is caught: the page number defaults
to 0 and a warning is printed (the `Bool` records that the warning was
printed). A `ValueError` from `int` is not caught and escapes. -/
def page_number (findall : String → List String) (file_name : String) :
    Except PFError (Int × Bool) :=
  match (findall file_name).getLast? with
  | none => .ok (0, true)
  | some m =>
    match pyInt m with
    | some n => .ok (n, false)
    | none => .error .valueError

/-- Suffix test `file.endswith(".svg")` from line 115. -/
def endswithSvg (s : String) : Bool :=
  ['.', 's', 'v', 'g'].isSuffixOf s.data

/-- ASCII lower-casing of one character, as `str.lower()` acts on the
ASCII file names considered here. -/
def pyLower (c : Char) : Char :=
  if c.isUpper then Char.ofNat (c.toNat + 32) else c

/-- Suffix test `file.lower().endswith(".svg")` from line 125. -/
def lowerEndswithSvg (s : String) : Bool :=
  ['.', 's', 'v', 'g'].isSuffixOf (s.data.map pyLower)

/-- The input path handed to `process_files`: a readable directory (with
its base name and its walked files as (file name, contents) pairs), a
valid zip archive (with the base name minus extension and its entries),
or anything else (line 128's error case). -/
inductive InputPath where
  | directory (name : String) (files : List (String × Bytes))
  | zipArchive (stem : String) (entries : List (String × Bytes))
  | invalid
deriving DecidableEq

/-- One enumeration step of `process_files`: if the file name passes the
extension filter, compute its page number (propagating `ValueError`) and
append the task `(page_number, svg_data)` to the queue. -/
def enqueueFile (findall : String → List String) (keep : String → Bool)
    (acc : List (Int × Bytes)) (f : String × Bytes) :
    Except PFError (List (Int × Bytes)) :=
  if keep f.1 then
    match page_number findall f.1 with
    | .ok pn => .ok (acc ++ [(pn.1, f.2)])
    | .error e => .error e
  else
    .ok acc

/-- The function `process_files` (lines 67-130): reads the SVG files of a
directory or zip archive into the queue, tagging each with its page
number, and returns the derived output file name together with the queue
contents (whose length is line 129's `number_of_svg_files`). A path that
is neither a directory nor a zip archive raises `TypeError`. -/
def process_files (findall : String → List String) (input : InputPath) :
    Except PFError (String × List (Int × Bytes)) :=
  match input with
  | .directory name files =>
    match files.foldlM (enqueueFile findall endswithSvg) [] with
    | .ok tasks => .ok (name ++ ".pdf", tasks)
    | .error e => .error e
  | .zipArchive stem entries =>
    match entries.foldlM (enqueueFile findall lowerEndswithSvg) [] with
    | .ok tasks => .ok (stem ++ ".pdf", tasks)
    | .error e => .error e
  | .invalid => .error .typeError

/-- One execution of the conversion body of `convert_svg_to_pdf`
(lines 56-63) on a pulled task: render the SVG bytes; on any exception
(`render _ = none`) the result's content is the fallback
`BLANK_PDF_PAGE`. Exactly one result pair is produced either way. -/
def convertOne (render : Bytes → Option Bytes) (t : Int × Bytes) : Int × Bytes :=
  (t.1, match render t.2 with
        | some pdf => pdf
        | none => BLANK_PDF_PAGE)

/-- Position of one worker process inside the loop of
`convert_svg_to_pdf` (lines 47-64). -/
inductive WStatus where
  /-- At the top of the loop, about to evaluate `svg_queue.qsize() > 0`. -/
  | looping
  /-- Observed `qsize() > 0` and about to call `get_nowait()`. -/
  | observed
  /-- Pulled a task from the queue and about to convert it. -/
  | pulled (t : Int × Bytes)
  /-- Left the loop: the function returned. -/
  | exited
deriving DecidableEq, Repr

/-- Shared state of a job: the task queue (`svg_queue`), the collected
results (`output_list`, a manager list supporting concurrent append), and
each worker's position. -/
structure JobState where
  queue : List (Int × Bytes)
  results : List (Int × Bytes)
  workers : List WStatus
deriving DecidableEq, Repr

/-- Interleaving small-step semantics of the pool of workers all running
`convert_svg_to_pdf` (lines 47-64) against the shared queue.
`observe`: the `while` condition sees a non-empty queue. `exitLoop`: the
`while` condition sees an empty queue and the worker returns. `pullOk`:
`get_nowait` succeeds and removes the head task. `pullEmpty`: the queue
was emptied by a concurrent pull between the size check and
`get_nowait`, which raises `_queue.Empty`; the handler `continue`s back
to the loop head. `work`: the worker converts its pulled task (catching
any rendering exception per `convertOne`) and appends exactly one result
to the shared list. -/
inductive WorkerStep (render : Bytes → Option Bytes) : JobState → JobState → Prop where
  | observe (s : JobState) (w : Nat)
      (h : s.workers[w]? = some .looping) (hq : s.queue ≠ []) :
      WorkerStep render s ⟨s.queue, s.results, s.workers.set w .observed⟩
  | exitLoop (s : JobState) (w : Nat)
      (h : s.workers[w]? = some .looping) (hq : s.queue = []) :
      WorkerStep render s ⟨s.queue, s.results, s.workers.set w .exited⟩
  | pullOk (s : JobState) (w : Nat) (t : Int × Bytes) (rest : List (Int × Bytes))
      (h : s.workers[w]? = some .observed) (hq : s.queue = t :: rest) :
      WorkerStep render s ⟨rest, s.results, s.workers.set w (.pulled t)⟩
  | pullEmpty (s : JobState) (w : Nat)
      (h : s.workers[w]? = some .observed) (hq : s.queue = []) :
      WorkerStep render s ⟨s.queue, s.results, s.workers.set w .looping⟩
  | work (s : JobState) (w : Nat) (t : Int × Bytes)
      (h : s.workers[w]? = some (.pulled t)) :
      WorkerStep render s ⟨s.queue, s.results ++ [convertOne render t], s.workers.set w .looping⟩

/-- Reflexive-transitive closure of the interleaving semantics. -/
def WorkerSteps (render : Bytes → Option Bytes) : JobState → JobState → Prop :=
  Relation.ReflTransGen (WorkerStep render)

/-- The job state set up by `main` (lines 190-201) right after
enumeration: the queue holds the enumerated tasks, the result list is
empty, and `n` workers (one per CPU) all start at the loop head. -/
def initState (tasks : List (Int × Bytes)) (n : Nat) : JobState :=
  ⟨tasks, [], List.replicate n .looping⟩

/-- Terminal condition of the pool: every worker has returned, so every
`p.join()` on lines 203-204 has completed. -/
def AllExited (s : JobState) : Prop :=
  ∀ st ∈ s.workers, st = WStatus.exited

/-- Number of workers currently holding a pulled, not yet published task. -/
def pendingCount (s : JobState) : Nat :=
  s.workers.countP fun st => match st with
    | .pulled _ => true
    | _ => false

/-- Sequencing of `main` (lines 194-201): `process_files` runs first and
its exceptions abort `main` before any worker process is created; on
success the worker pool starts from `initState`. -/
def mainInit (findall : String → List String) (input : InputPath) (n : Nat) :
    Except PFError (String × JobState) :=
  (process_files findall input).map fun r => (r.1, initState r.2 n)

/-- Summary line printed at the end of `write_pdf` (lines 162-165). -/
inductive Summary where
  /-- Line 163: created with errors; carries file name, `len(output_list)`
  and the error page list. -/
  | createdWithErrors (file : String) (total : Nat) (errPages : List Int)
  /-- Line 165: created successfully; carries file name and `len(output_list)`. -/
  | createdSuccessfully (file : String) (total : Nat)
deriving DecidableEq, Repr

/-- Observable outcome of `write_pdf`: which file was written (if any),
the pages appended to the merger in order, the collected `error_page`
list, and the final summary line (if any). -/
structure WriteReport where
  written : Option String
  merged : List (Int × Bytes)
  error_page : List Int
  summary : Option Summary
deriving DecidableEq, Repr

/-- Body of the merge loop of `write_pdf` (lines 151-158) for one sorted
entry `(i, pdf)`: try `merger.append`; on success, additionally record
`i` in `error_page` when the bytes equal `BLANK_PDF_PAGE` (line 154); on
an exception from the merger, record `i` in `error_page` and continue. -/
def mergeStep (mergeOk : Bytes → Bool) (acc : List (Int × Bytes) × List Int)
    (p : Int × Bytes) : List (Int × Bytes) × List Int :=
  if mergeOk p.2 then
    (acc.1 ++ [p], if p.2 == BLANK_PDF_PAGE then acc.2 ++ [p.1] else acc.2)
  else
    (acc.1, acc.2 ++ [p.1])

/-- Classification of one sorted entry by the loop of lines 151-158:
`some i` when index `i` lands in `error_page` (merger rejected the bytes,
or the merger accepted them and they equal `BLANK_PDF_PAGE`), `none`
otherwise. -/
def errTag (mergeOk : Bytes → Bool) (p : Int × Bytes) : Option Int :=
  if mergeOk p.2 then (if p.2 == BLANK_PDF_PAGE then some p.1 else none)
  else some p.1

/-- The function `write_pdf` (lines 133-165): when the result list is
non-empty, sort it in place (Python's stable sort under the tuple order
`tupleLe`), append each page to the merger with per-page error recovery,
write the file, and print a summary; when the result list is empty, do
nothing at all. -/
def write_pdf (mergeOk : Bytes → Bool) (output_list : List (Int × Bytes))
    (file_name : String) : WriteReport :=
  if output_list.isEmpty then
    ⟨none, [], [], none⟩
  else
    let sorted := output_list.mergeSort tupleLe
    let res := sorted.foldl (mergeStep mergeOk) ([], [])
    ⟨some file_name, res.1, res.2,
      some (if res.2.isEmpty then .createdSuccessfully file_name output_list.length
            else .createdWithErrors file_name output_list.length res.2)⟩

/-! ### Properties of the byte and tuple orders -/

/-- Byte-string comparison is irreflexive. -/
theorem bytesLt_irrefl (a : Bytes) : bytesLt a a = false := by
  induction a with
  | nil => rfl
  | cons x xs ih => simp [bytesLt, ih]

/-- Byte-string comparison is transitive. -/
theorem bytesLt_trans (a b c : Bytes) (hab : bytesLt a b = true)
    (hbc : bytesLt b c = true) : bytesLt a c = true := by
  induction a generalizing b c with
  | nil =>
    cases b with
    | nil => simp [bytesLt] at hab
    | cons y ys =>
      cases c with
      | nil => simp [bytesLt] at hbc
      | cons z zs => simp [bytesLt]
  | cons x xs ih =>
    cases b with
    | nil => simp [bytesLt] at hab
    | cons y ys =>
      cases c with
      | nil => simp [bytesLt] at hbc
      | cons z zs =>
        simp only [bytesLt, Bool.or_eq_true, Bool.and_eq_true, decide_eq_true_eq,
          beq_iff_eq] at hab hbc ⊢
        rcases hab with h1 | ⟨he, h2⟩ <;> rcases hbc with g1 | ⟨ge, g2⟩
        · exact Or.inl (Nat.lt_trans h1 g1)
        · exact Or.inl (ge ▸ h1)
        · exact Or.inl (he ▸ g1)
        · exact Or.inr ⟨he.trans ge, ih ys zs h2 g2⟩

/-- Two byte strings neither of which is below the other are equal. -/
theorem bytesLt_conn (a b : Bytes) (hab : bytesLt a b = false)
    (hba : bytesLt b a = false) : a = b := by
  induction a generalizing b with
  | nil =>
    cases b with
    | nil => rfl
    | cons y ys => simp [bytesLt] at hab
  | cons x xs ih =>
    cases b with
    | nil => simp [bytesLt] at hba
    | cons y ys =>
      simp only [bytesLt, Bool.or_eq_false_iff, Bool.and_eq_false_iff,
        decide_eq_false_iff_not, beq_eq_false_iff_ne, ne_eq] at hab hba
      have hxy : x = y := by omega
      subst hxy
      rcases hab.2 with h | h
      · exact absurd rfl h
      · rcases hba.2 with g | g
        · exact absurd rfl g
        · exact congrArg (x :: ·) (ih ys h g)

/-- Byte-string comparison is asymmetric. -/
theorem bytesLt_asymm (a b : Bytes) (hab : bytesLt a b = true) :
    bytesLt b a = false := by
  by_contra h
  have hba : bytesLt b a = true := by
    cases hh : bytesLt b a
    · exact absurd hh h
    · rfl
  have := bytesLt_trans a b a hab hba
  rw [bytesLt_irrefl] at this
  exact Bool.false_ne_true this

/-- The tuple order used by `output_list.sort()` is transitive. -/
theorem tupleLe_trans (a b c : Int × Bytes) (hab : tupleLe a b = true)
    (hbc : tupleLe b c = true) : tupleLe a c = true := by
  simp only [tupleLe, Bool.or_eq_true, Bool.and_eq_true, decide_eq_true_eq,
    beq_iff_eq, Bool.not_eq_true'] at hab hbc ⊢
  rcases hab with h1 | ⟨he, h2⟩ <;> rcases hbc with g1 | ⟨ge, g2⟩
  · exact Or.inl (lt_trans h1 g1)
  · exact Or.inl (ge ▸ h1)
  · exact Or.inl (he ▸ g1)
  · refine Or.inr ⟨he.trans ge, ?_⟩
    cases hca : bytesLt c.2 a.2
    · rfl
    · cases hbc2 : bytesLt b.2 c.2
      · have hbceq : b.2 = c.2 := bytesLt_conn b.2 c.2 hbc2 g2
        rw [← hbceq] at hca
        rw [hca] at h2
        exact Bool.noConfusion h2
      · have hba : bytesLt b.2 a.2 = true := bytesLt_trans b.2 c.2 a.2 hbc2 hca
        rw [hba] at h2
        exact Bool.noConfusion h2

/-- The tuple order used by `output_list.sort()` is total. -/
theorem tupleLe_total (a b : Int × Bytes) : (tupleLe a b || tupleLe b a) = true := by
  simp only [tupleLe, Bool.or_eq_true, Bool.and_eq_true, decide_eq_true_eq,
    beq_iff_eq, Bool.not_eq_true']
  rcases lt_trichotomy a.1 b.1 with h | h | h
  · exact Or.inl (Or.inl h)
  · cases hh : bytesLt b.2 a.2
    · exact Or.inl (Or.inr ⟨h, rfl⟩)
    · exact Or.inr (Or.inr ⟨h.symm, bytesLt_asymm b.2 a.2 hh⟩)
  · exact Or.inr (Or.inl h)

/-! ### Characterization of the merge loop of `write_pdf` -/

/-- The pages successfully appended to the merger by the loop of
lines 151-158 are exactly the sorted entries the merge capability
accepts, in order. -/
theorem foldl_mergeStep_fst (mergeOk : Bytes → Bool) :
    ∀ (l : List (Int × Bytes)) (acc : List (Int × Bytes) × List Int),
      (l.foldl (mergeStep mergeOk) acc).1 = acc.1 ++ l.filter (fun p => mergeOk p.2) := by
  intro l
  induction l with
  | nil => intro acc; simp
  | cons p ps ih =>
    intro acc
    rw [List.foldl_cons, ih]
    by_cases hp : mergeOk p.2
    · simp [mergeStep, hp]
    · simp [mergeStep, hp]

/-- The `error_page` list built by the loop of lines 151-158 collects, in
order, the index of every sorted entry the merge capability rejects and
of every accepted entry whose bytes equal `BLANK_PDF_PAGE`. -/
theorem foldl_mergeStep_snd (mergeOk : Bytes → Bool) :
    ∀ (l : List (Int × Bytes)) (acc : List (Int × Bytes) × List Int),
      (l.foldl (mergeStep mergeOk) acc).2 = acc.2 ++ l.filterMap (errTag mergeOk) := by
  intro l
  induction l with
  | nil => intro acc; simp
  | cons p ps ih =>
    intro acc
    rw [List.foldl_cons, ih]
    cases hp : mergeOk p.2
    · have ht : errTag mergeOk p = some p.1 := by simp [errTag, hp]
      simp [mergeStep, hp, ht, List.filterMap_cons]
    · cases hb : p.2 == BLANK_PDF_PAGE
      · have ht : errTag mergeOk p = none := by simp [errTag, hp, hb]
        simp [mergeStep, hp, hb, ht, List.filterMap_cons]
      · have ht : errTag mergeOk p = some p.1 := by simp [errTag, hp, hb]
        simp [mergeStep, hp, hb, ht, List.filterMap_cons]

/-- Pages appended by `write_pdf` on a non-empty result list: the sorted
entries accepted by the merge capability. -/
theorem write_pdf_merged (mergeOk : Bytes → Bool) (l : List (Int × Bytes))
    (fn : String) (h : l ≠ []) :
    (write_pdf mergeOk l fn).merged =
      (l.mergeSort tupleLe).filter (fun p => mergeOk p.2) := by
  rw [write_pdf]
  rw [if_neg (by simp [List.isEmpty_iff, h])]
  simpa using foldl_mergeStep_fst mergeOk (l.mergeSort tupleLe) ([], [])

/-- Error pages recorded by `write_pdf` on a non-empty result list. -/
theorem write_pdf_error_page (mergeOk : Bytes → Bool) (l : List (Int × Bytes))
    (fn : String) (h : l ≠ []) :
    (write_pdf mergeOk l fn).error_page =
      (l.mergeSort tupleLe).filterMap (errTag mergeOk) := by
  rw [write_pdf]
  rw [if_neg (by simp [List.isEmpty_iff, h])]
  simpa using foldl_mergeStep_snd mergeOk (l.mergeSort tupleLe) ([], [])

/-- The output file is written whenever the result list is non-empty. -/
theorem write_pdf_written (mergeOk : Bytes → Bool) (l : List (Int × Bytes))
    (fn : String) (h : l ≠ []) :
    (write_pdf mergeOk l fn).written = some fn := by
  rw [write_pdf]
  rw [if_neg (by simp [List.isEmpty_iff, h])]

/-! ### Claims about the assembly step `write_pdf` -/

unseal List.merge List.mergeSort in
/-- C1 (counterexample): the claim that results sharing a page index keep
their original collection order is false. The collected list
`[(0, b"b"), (0, b"a")]` (bytes 98 and 97) is emitted by `write_pdf` as
`[(0, b"a"), (0, b"b")]`: `output_list.sort()` compares whole
`(page_number, pdf_content)` tuples, so the tie on index 0 is broken by
byte comparison of the contents, reversing the collection order. -/
theorem C1_counterexample :
    (write_pdf (fun _ => true) [((0 : Int), [98]), ((0 : Int), [97])] "f.pdf").merged =
      [((0 : Int), [97]), ((0 : Int), [98])] ∧
    ¬ (write_pdf (fun _ => true) [((0 : Int), [98]), ((0 : Int), [97])] "f.pdf").merged =
      [((0 : Int), [98]), ((0 : Int), [97])] := by
  constructor
  · rfl
  · decide

/-- C1 (amended): for every non-empty collection of results, `write_pdf`
emits the pages as a permutation of the collected results in ascending
order of page index, with ties on equal page index broken by Python's
lexicographic comparison of the rendered bytes (the sort compares the
whole `(page_number, pdf_content)` tuples), not by collection order. -/
theorem C1_assembly_order (mergeOk : Bytes → Bool) (l : List (Int × Bytes))
    (fn : String) (h : l ≠ []) :
    ((write_pdf (fun _ => true) l fn).merged).Perm l ∧
    ((write_pdf mergeOk l fn).merged).Pairwise (fun a b => tupleLe a b = true) ∧
    ((write_pdf mergeOk l fn).merged).Pairwise (fun a b => a.1 ≤ b.1) := by
  have hs : (l.mergeSort tupleLe).Pairwise (fun a b => tupleLe a b = true) :=
    @List.sorted_mergeSort _ tupleLe tupleLe_trans tupleLe_total l
  have hm : (write_pdf mergeOk l fn).merged =
      (l.mergeSort tupleLe).filter (fun p => mergeOk p.2) :=
    write_pdf_merged mergeOk l fn h
  have hpw : ((write_pdf mergeOk l fn).merged).Pairwise (fun a b => tupleLe a b = true) := by
    rw [hm]
    exact hs.sublist (List.filter_sublist _)
  refine ⟨?_, hpw, ?_⟩
  · have hm1 : (write_pdf (fun _ => true) l fn).merged = l.mergeSort tupleLe := by
      rw [write_pdf_merged _ _ _ h]
      simp
    rw [hm1]
    exact List.mergeSort_perm l tupleLe
  · refine List.Pairwise.imp ?_ hpw
    intro a b hab
    simp only [tupleLe, Bool.or_eq_true, Bool.and_eq_true, decide_eq_true_eq,
      beq_iff_eq] at hab
    rcases hab with h1 | ⟨he, _⟩
    · exact le_of_lt h1
    · exact le_of_eq he

/-- C1 (witness): the amended ordering theorem applied to the concrete
collected list `[(1, [5]), (0, [7])]`. -/
theorem C1_witness :
    ([((1 : Int), ([5] : Bytes)), ((0 : Int), [7])] ≠ ([] : List (Int × Bytes))) ∧
    (((write_pdf (fun _ => true) [((1 : Int), ([5] : Bytes)), ((0 : Int), [7])] "g.pdf").merged).Perm
        [((1 : Int), ([5] : Bytes)), ((0 : Int), [7])] ∧
      ((write_pdf (fun _ => true) [((1 : Int), ([5] : Bytes)), ((0 : Int), [7])] "g.pdf").merged).Pairwise
        (fun a b => tupleLe a b = true) ∧
      ((write_pdf (fun _ => true) [((1 : Int), ([5] : Bytes)), ((0 : Int), [7])] "g.pdf").merged).Pairwise
        (fun a b => a.1 ≤ b.1)) :=
  ⟨by decide,
    C1_assembly_order (fun _ => true) [((1 : Int), [5]), ((0 : Int), [7])] "g.pdf" (by decide)⟩

/-- C5: on a non-empty result list the output file is still written, the
index of every sorted page the merge capability rejects is recorded in
`error_page`, and every page the merge capability accepts is still
appended to the merger — an assembly failure on one page never aborts the
whole job. -/
theorem C5_assembly_failure_isolated (mergeOk : Bytes → Bool)
    (l : List (Int × Bytes)) (fn : String) (h : l ≠ []) :
    (write_pdf mergeOk l fn).written = some fn ∧
    (∀ p ∈ l.mergeSort tupleLe, mergeOk p.2 = false →
      p.1 ∈ (write_pdf mergeOk l fn).error_page) ∧
    (∀ p ∈ l.mergeSort tupleLe, mergeOk p.2 = true →
      p ∈ (write_pdf mergeOk l fn).merged) := by
  refine ⟨write_pdf_written mergeOk l fn h, ?_, ?_⟩
  · intro p hp hm
    rw [write_pdf_error_page mergeOk l fn h]
    exact List.mem_filterMap.mpr ⟨p, hp, by simp [errTag, hm]⟩
  · intro p hp hm
    rw [write_pdf_merged mergeOk l fn h]
    exact List.mem_filter.mpr ⟨hp, hm⟩

/-- C5 (witness): with a merge capability that rejects exactly the bytes
`[9]`, on the collected list `[(2, [9]), (1, [7])]` the file is written,
page 2 lands in `error_page`, and page `(1, [7])` is still merged. -/
theorem C5_witness :
    (write_pdf (fun b => !(b == [9])) [((2 : Int), ([9] : Bytes)), ((1 : Int), [7])] "f.pdf").written =
      some "f.pdf" ∧
    (2 : Int) ∈ (write_pdf (fun b => !(b == [9])) [((2 : Int), ([9] : Bytes)), ((1 : Int), [7])] "f.pdf").error_page ∧
    ((1 : Int), ([7] : Bytes)) ∈ (write_pdf (fun b => !(b == [9])) [((2 : Int), ([9] : Bytes)), ((1 : Int), [7])] "f.pdf").merged := by
  have H := C5_assembly_failure_isolated (fun b => !(b == [9]))
    [((2 : Int), ([9] : Bytes)), ((1 : Int), [7])] "f.pdf" (by decide)
  refine ⟨H.1, ?_, ?_⟩
  · exact H.2.1 ((2 : Int), [9])
      ((List.mergeSort_perm _ tupleLe).mem_iff.mpr (by decide)) (by decide)
  · exact H.2.2 ((1 : Int), [7])
      ((List.mergeSort_perm _ tupleLe).mem_iff.mpr (by decide)) (by decide)

/-- C8 (counterexample): on an empty result list the code writes no file,
but it also prints no report at all — `write_pdf` is a no-op inside
`if output_list:`, so there is no "nothing to do" / "no pages" summary,
contradicting the claimed explicit report. -/
theorem C8_counterexample :
    (write_pdf (fun _ => true) ([] : List (Int × Bytes)) "out.pdf").written = none ∧
    (write_pdf (fun _ => true) ([] : List (Int × Bytes)) "out.pdf").summary = none :=
  ⟨rfl, rfl⟩

/-- C8 (amended): if the results collection is empty, no output document
is written and no summary of any kind is reported — the job finishes
silently, with no explicit "nothing to do" message. -/
theorem C8_empty_silent (mergeOk : Bytes → Bool) (fn : String) :
    write_pdf mergeOk [] fn = ⟨none, [], [], none⟩ :=
  rfl

/-- C10: `write_pdf` classifies fallback pages by comparing bytes with the
constant `BLANK_PDF_PAGE` (results carry no fallback flag): an index is
reported in `error_page` exactly when the collection holds an entry with
that index whose bytes the merge capability rejects or whose bytes equal
the placeholder blob — including successfully rendered pages that merely
happen to equal it. -/
theorem C10_fallback_by_byte_equality (mergeOk : Bytes → Bool)
    (l : List (Int × Bytes)) (fn : String) (i : Int) :
    i ∈ (write_pdf mergeOk l fn).error_page ↔
      ∃ pdf, (i, pdf) ∈ l ∧ (mergeOk pdf = false ∨ pdf = BLANK_PDF_PAGE) := by
  rcases eq_or_ne l [] with rfl | h
  · simp [write_pdf]
  · rw [write_pdf_error_page mergeOk l fn h, List.mem_filterMap]
    constructor
    · rintro ⟨p, hp, hfp⟩
      have hpl : p ∈ l := (List.mergeSort_perm l tupleLe).mem_iff.mp hp
      unfold errTag at hfp
      split_ifs at hfp with hm hb
      · have hpi : p.1 = i := Option.some.inj hfp
        subst hpi
        exact ⟨p.2, by simpa using hpl, Or.inr (by simpa using hb)⟩
      · have hpi : p.1 = i := Option.some.inj hfp
        subst hpi
        exact ⟨p.2, by simpa using hpl, Or.inl (by simpa using hm)⟩
    · rintro ⟨pdf, hmem, hcond⟩
      refine ⟨(i, pdf), (List.mergeSort_perm l tupleLe).mem_iff.mpr hmem, ?_⟩
      unfold errTag
      rcases hcond with hm | hb
      · simp [hm]
      · simp [hb]

/-! ### Claims about enumeration (`process_files` and `page_number`) -/

/-- An exception escaping `page_number` is always the `ValueError` from
`int()`, never anything else. -/
theorem page_number_error_eq (findall : String → List String) (name : String)
    (e : PFError) (h : page_number findall name = .error e) : e = .valueError := by
  unfold page_number at h
  split at h
  · exact absurd h (by simp)
  · split at h
    · exact absurd h (by simp)
    · exact (Except.error.inj h).symm

/-- An exception escaping one enumeration step is always `ValueError`. -/
theorem enqueueFile_error_eq (findall : String → List String) (keep : String → Bool)
    (acc : List (Int × Bytes)) (f : String × Bytes) (e : PFError)
    (h : enqueueFile findall keep acc f = .error e) : e = .valueError := by
  unfold enqueueFile at h
  split at h
  · split at h
    · exact absurd h (by simp)
    · rename_i e' heq
      have he : e' = e := Except.error.inj h
      exact he ▸ page_number_error_eq findall f.1 e' heq
  · exact absurd h (by simp)

/-- The enumeration fold over the files never raises `TypeError`. -/
theorem foldlM_enqueue_error_eq (findall : String → List String) (keep : String → Bool) :
    ∀ (files : List (String × Bytes)) (acc : List (Int × Bytes)) (e : PFError),
      files.foldlM (enqueueFile findall keep) acc = .error e → e = .valueError := by
  intro files
  induction files with
  | nil =>
    intro acc e h
    rw [List.foldlM_nil] at h
    exact absurd h (by simp [pure, Except.pure])
  | cons f fs ih =>
    intro acc e h
    rw [List.foldlM_cons] at h
    cases hf : enqueueFile findall keep acc f with
    | ok acc' =>
      rw [hf] at h
      exact ih acc' e h
    | error e' =>
      rw [hf] at h
      have hee : (Except.error e' : Except PFError (List (Int × Bytes))) = .error e := h
      have he : e' = e := Except.error.inj hee
      exact he ▸ enqueueFile_error_eq findall keep acc f e' hf

/-- C6: `process_files` raises the input error (`TypeError`, line 128) if
and only if the input path is neither a directory nor a valid zip
archive; and on such an input, `main`'s sequencing aborts before any
worker state is constructed, since `process_files` runs before the
worker processes are started (lines 194-201). -/
theorem C6_input_error_iff (findall : String → List String) (input : InputPath)
    (n : Nat) :
    (process_files findall input = .error .typeError ↔ input = .invalid) ∧
    (input = .invalid → mainInit findall input n = .error .typeError) := by
  constructor
  · constructor
    · intro h
      cases input with
      | directory name files =>
        simp only [process_files] at h
        split at h
        · exact absurd h (by simp)
        · rename_i e heq
          have he : e = PFError.typeError := Except.error.inj h
          have hv : e = PFError.valueError :=
            foldlM_enqueue_error_eq findall endswithSvg files [] e heq
          rw [hv] at he
          exact absurd he (by simp)
      | zipArchive stem entries =>
        simp only [process_files] at h
        split at h
        · exact absurd h (by simp)
        · rename_i e heq
          have he : e = PFError.typeError := Except.error.inj h
          have hv : e = PFError.valueError :=
            foldlM_enqueue_error_eq findall lowerEndswithSvg entries [] e heq
          rw [hv] at he
          exact absurd he (by simp)
      | invalid => rfl
    · intro h; subst h; rfl
  · intro h; subst h; rfl

/-- C6 (witness): the iff and the abort-before-workers consequence at a
concrete invalid path. -/
theorem C6_witness :
    (process_files (fun _ => ["1"]) .invalid = .error .typeError ↔
      InputPath.invalid = .invalid) ∧
    mainInit (fun _ => ["1"]) .invalid 4 = .error .typeError :=
  ⟨(C6_input_error_iff (fun _ => ["1"]) .invalid 4).1,
    (C6_input_error_iff (fun _ => ["1"]) .invalid 4).2 rfl⟩

/-- Enumeration of a single file reduces to one enumeration step. -/
theorem foldlM_enqueue_singleton (findall : String → List String) (keep : String → Bool)
    (f : String × Bytes) (acc : List (Int × Bytes)) :
    [f].foldlM (enqueueFile findall keep) acc = enqueueFile findall keep acc f := by
  rw [List.foldlM_cons]
  cases h : enqueueFile findall keep acc f with
  | ok v => simp [List.foldlM_nil]
  | error e => rfl

/-- C7: the page index assigned during enumeration is the integer parse
of the last regular-expression match in the file name: with no match the
index defaults to 0 with a warning recorded (first and third conjuncts,
the third showing enumeration of such a file succeeds, placing it at
index 0 — not fatal), and with a last match that parses as an integer the
index is that integer with no warning (second conjunct). -/
theorem C7_page_index_from_last_match (findall : String → List String) (name : String) :
    (findall name = [] → page_number findall name = .ok (0, true)) ∧
    (∀ m n, (findall name).getLast? = some m → pyInt m = some n →
      page_number findall name = .ok (n, false)) ∧
    (∀ dirname data, findall name = [] → endswithSvg name = true →
      process_files findall (.directory dirname [(name, data)]) =
        .ok (dirname ++ ".pdf", [(0, data)])) := by
  refine ⟨?_, ?_, ?_⟩
  · intro h
    simp only [page_number, h, List.getLast?_nil]
  · intro m n hm hn
    simp only [page_number, hm, hn]
  · intro dirname data h hsvg
    have hpn : page_number findall name = .ok (0, true) := by
      simp only [page_number, h, List.getLast?_nil]
    have hen : enqueueFile findall endswithSvg [] (name, data) = .ok [(0, data)] := by
      simp only [enqueueFile]
      rw [if_pos hsvg, hpn]
      simp
    simp only [process_files, foldlM_enqueue_singleton, hen]

/-- C7 (witness): the three conjuncts of the page-index theorem applied
at concrete inputs: a pattern with no match in `x.svg` defaults to index
0 with a warning and still enumerates, and last match `"12"` parses to
index 12 with no warning. -/
theorem C7_witness :
    page_number (fun _ => ([] : List String)) "x.svg" = .ok (0, true) ∧
    page_number (fun _ => ["page", "12"]) "x.svg" = .ok (12, false) ∧
    process_files (fun _ => ([] : List String)) (.directory "d" [("x.svg", [7])]) =
      .ok ("d.pdf", [(0, [7])]) :=
  ⟨(C7_page_index_from_last_match (fun _ => ([] : List String)) "x.svg").1 rfl,
   (C7_page_index_from_last_match (fun _ => ["page", "12"]) "x.svg").2.1 "12" 12 rfl (by decide),
   (C7_page_index_from_last_match (fun _ => ([] : List String)) "x.svg").2.2 "d" [7] rfl (by decide)⟩

/-- C9: when the pattern does match the file name but the last match is
not parseable as an integer, `int()` raises an uncaught `ValueError`
inside `page_number`, and `process_files` aborts with it; the third
conjunct shows an exception escapes `page_number` only in this
parse-failure case, so the no-match (`IndexError`) case is the only
recovered one. -/
theorem C9_uncaught_value_error (findall : String → List String)
    (name m dirname : String) (data : Bytes)
    (h1 : (findall name).getLast? = some m) (h2 : pyInt m = none)
    (h3 : endswithSvg name = true) :
    page_number findall name = .error .valueError ∧
    process_files findall (.directory dirname [(name, data)]) = .error .valueError ∧
    (∀ (g : String → List String) (nm : String) (e : PFError),
      page_number g nm = .error e →
        ∃ mm, (g nm).getLast? = some mm ∧ pyInt mm = none) := by
  have hpn : page_number findall name = .error .valueError := by
    simp only [page_number, h1, h2]
  refine ⟨hpn, ?_, ?_⟩
  · have hen : enqueueFile findall endswithSvg [] (name, data) = .error .valueError := by
      simp only [enqueueFile]
      rw [if_pos h3, hpn]
    simp only [process_files, foldlM_enqueue_singleton, hen]
  · intro g nm e he
    unfold page_number at he
    split at he
    · exact absurd he (by simp)
    · rename_i m' hm'
      split at he
      · exact absurd he (by simp)
      · rename_i hpy
        exact ⟨m', hm', hpy⟩

/-- C9 (witness): with a pattern whose matches are `["ab"]`, the file
`x.svg` makes `page_number` raise `ValueError` and the whole enumeration
abort. -/
theorem C9_witness :
    page_number (fun _ => ["ab"]) "x.svg" = .error .valueError ∧
    process_files (fun _ => ["ab"]) (.directory "d" [("x.svg", [1])]) =
      .error .valueError :=
  ⟨(C9_uncaught_value_error (fun _ => ["ab"]) "x.svg" "ab" "d" [1] rfl (by decide) (by decide)).1,
   (C9_uncaught_value_error (fun _ => ["ab"]) "x.svg" "ab" "d" [1] rfl (by decide) (by decide)).2.1⟩

/-! ### Claims about the worker pool (`convert_svg_to_pdf`) -/

/-- Reading an updated slot of the worker list. -/
theorem getElem?_set_cases {l : List WStatus} {v w : Nat} {a : WStatus}
    (hv : v < l.length) :
    (l.set v a)[w]? = if v = w then some a else l[w]? := by
  by_cases h : v = w
  · subst h; simp [List.getElem?_set_self hv]
  · simp [List.getElem?_set_ne h, h]

/-- A value written into a list slot is a member of the updated list. -/
theorem mem_set_self {α : Type _} {l : List α} {w : Nat} (a : α)
    (h : w < l.length) : a ∈ l.set w a := by
  have hx : (l.set w a)[w]? = some a := List.getElem?_set_self h
  obtain ⟨h1, h2⟩ := List.getElem?_eq_some_iff.mp hx
  have hm := List.getElem_mem h1
  rwa [h2] at hm

/-- Each step of a worker preserves the count
`queued + pulled-but-unpublished + published = constant`. -/
theorem workerStep_count_invariant (render : Bytes → Option Bytes) {s s' : JobState}
    (h : WorkerStep render s s') :
    s'.queue.length + pendingCount s' + s'.results.length =
      s.queue.length + pendingCount s + s.results.length := by
  cases h with
  | observe w hw hq =>
    obtain ⟨hlt, hg⟩ := List.getElem?_eq_some_iff.mp hw
    show s.queue.length + (s.workers.set w .observed).countP _ + s.results.length = _
    rw [List.countP_set _ _ _ _ hlt, hg]
    simp [pendingCount]
  | exitLoop w hw hq =>
    obtain ⟨hlt, hg⟩ := List.getElem?_eq_some_iff.mp hw
    show s.queue.length + (s.workers.set w .exited).countP _ + s.results.length = _
    rw [List.countP_set _ _ _ _ hlt, hg]
    simp [pendingCount]
  | pullOk w t rest hw hq =>
    obtain ⟨hlt, hg⟩ := List.getElem?_eq_some_iff.mp hw
    show rest.length + (s.workers.set w (.pulled t)).countP _ + s.results.length = _
    rw [List.countP_set _ _ _ _ hlt, hg, hq]
    show rest.length + (pendingCount s - 0 + 1) + s.results.length =
      (t :: rest).length + pendingCount s + s.results.length
    simp [List.length_cons]
    omega
  | pullEmpty w hw hq =>
    obtain ⟨hlt, hg⟩ := List.getElem?_eq_some_iff.mp hw
    show s.queue.length + (s.workers.set w .looping).countP _ + s.results.length = _
    rw [List.countP_set _ _ _ _ hlt, hg]
    simp [pendingCount]
  | work w t hw =>
    obtain ⟨hlt, hg⟩ := List.getElem?_eq_some_iff.mp hw
    have hpos : 0 < pendingCount s := by
      refine List.countP_pos_iff.mpr ⟨.pulled t, ?_, rfl⟩
      exact hg ▸ List.getElem_mem hlt
    show s.queue.length + (s.workers.set w .looping).countP _ +
      (s.results ++ [convertOne render t]).length = _
    rw [List.countP_set _ _ _ _ hlt, hg, List.length_append]
    show s.queue.length + (pendingCount s - 1 + 0) + (s.results.length + 1) =
      s.queue.length + pendingCount s + s.results.length
    omega

/-- The count invariant holds along any interleaved execution. -/
theorem workerSteps_count_invariant (render : Bytes → Option Bytes) {s s' : JobState}
    (h : WorkerSteps render s s') :
    s'.queue.length + pendingCount s' + s'.results.length =
      s.queue.length + pendingCount s + s.results.length := by
  induction h with
  | refl => rfl
  | tail h1 h2 ih => exact (workerStep_count_invariant render h2).trans ih

/-- When every worker has exited, the queue is empty: a worker leaves the
loop only after observing `qsize() == 0`, and no step refills the queue. -/
theorem allExited_queue_eq_nil (render : Bytes → Option Bytes)
    {tasks : List (Int × Bytes)} {n : Nat} {s : JobState} (hn : 0 < n)
    (h : WorkerSteps render (initState tasks n) s) :
    AllExited s → s.queue = [] := by
  induction h with
  | refl =>
    intro he
    exfalso
    have hmem : WStatus.looping ∈ List.replicate n WStatus.looping :=
      List.mem_replicate.mpr ⟨Nat.pos_iff_ne_zero.mp hn, rfl⟩
    exact WStatus.noConfusion (he _ hmem)
  | tail h1 h2 ih =>
    intro he
    cases h2 with
    | observe w hw hq =>
      exact absurd (he _ (mem_set_self _ (List.getElem?_eq_some_iff.mp hw).1))
        (fun hx => WStatus.noConfusion hx)
    | exitLoop w hw hq => exact hq
    | pullOk w t rest hw hq =>
      exact absurd (he _ (mem_set_self _ (List.getElem?_eq_some_iff.mp hw).1))
        (fun hx => WStatus.noConfusion hx)
    | pullEmpty w hw hq => exact hq
    | work w t hw =>
      exact absurd (he _ (mem_set_self _ (List.getElem?_eq_some_iff.mp hw).1))
        (fun hx => WStatus.noConfusion hx)

/-- No worker holds an unpublished task once all workers have exited. -/
theorem pendingCount_eq_zero_of_allExited {s : JobState} (he : AllExited s) :
    pendingCount s = 0 := by
  refine List.countP_eq_zero.mpr ?_
  intro a ha
  rw [he a ha]
  simp

/-- C2: for every job over the enumerated tasks, along any interleaved
execution of the worker pool (at least one worker), once all workers have
exited the shared result list holds exactly one result per enumerated
task — no task is lost and none is duplicated. -/
theorem C2_result_count (render : Bytes → Option Bytes) (tasks : List (Int × Bytes))
    (n : Nat) (s : JobState) (hn : 0 < n)
    (hsteps : WorkerSteps render (initState tasks n) s) (hexit : AllExited s) :
    s.results.length = tasks.length := by
  have hinv := workerSteps_count_invariant render hsteps
  have hq : s.queue = [] := allExited_queue_eq_nil render hn hsteps hexit
  have hp : pendingCount s = 0 := pendingCount_eq_zero_of_allExited hexit
  have hp0 : pendingCount (initState tasks n) = 0 := by
    refine List.countP_eq_zero.mpr ?_
    intro a ha
    rw [(List.mem_replicate.mp ha).2]
    simp
  rw [hq, hp] at hinv
  rw [show (initState tasks n).queue = tasks from rfl,
    show (initState tasks n).results = [] from rfl, hp0] at hinv
  simpa using hinv

/-- C2 (witness): one worker, one task whose rendering fails: the
four-step run observe → pull → convert → exit ends with all workers
exited and exactly one collected result. -/
theorem C2_witness :
    (JobState.mk [] [((0 : Int), BLANK_PDF_PAGE)] [WStatus.exited]).results.length =
      [((0 : Int), ([1] : Bytes))].length := by
  refine C2_result_count (fun _ => none) [((0 : Int), [1])] 1 _ (by decide) ?_ ?_
  · refine Relation.ReflTransGen.head (WorkerStep.observe _ 0 rfl (by simp [initState])) ?_
    refine Relation.ReflTransGen.head (WorkerStep.pullOk _ 0 ((0 : Int), [1]) [] rfl rfl) ?_
    refine Relation.ReflTransGen.head (WorkerStep.work _ 0 ((0 : Int), [1]) rfl) ?_
    exact Relation.ReflTransGen.head (WorkerStep.exitLoop _ 0 rfl rfl) Relation.ReflTransGen.refl
  · intro st hst
    simp only [List.mem_singleton] at hst
    exact hst

/-- C3: a worker holding a pulled task has the conversion step enabled;
that step appends exactly one result to the shared list — the rendered
bytes on success, the fixed `BLANK_PDF_PAGE` placeholder when the
rendering adapter fails — and leaves the queue and every other worker's
state untouched, so one page's rendering failure never aborts the
job or any other worker. -/
theorem C3_one_result_per_task (render : Bytes → Option Bytes) (s : JobState)
    (w : Nat) (i : Int) (svg : Bytes)
    (h : s.workers[w]? = some (.pulled (i, svg))) :
    WorkerStep render s
      ⟨s.queue, s.results ++ [convertOne render (i, svg)], s.workers.set w .looping⟩ ∧
    (s.results ++ [convertOne render (i, svg)]).length = s.results.length + 1 ∧
    (render svg = none → convertOne render (i, svg) = (i, BLANK_PDF_PAGE)) ∧
    (∀ pdf, render svg = some pdf → convertOne render (i, svg) = (i, pdf)) ∧
    (∀ w', w' ≠ w → (s.workers.set w .looping)[w']? = s.workers[w']?) := by
  refine ⟨WorkerStep.work s w (i, svg) h, by simp, ?_, ?_, ?_⟩
  · intro hr; simp [convertOne, hr]
  · intro pdf hr; simp [convertOne, hr]
  · intro w' hne
    exact List.getElem?_set_ne (Ne.symm hne)

/-- C3 (witness): a single worker holding task `(0, [5])` whose rendering
fails publishes exactly the placeholder result `(0, BLANK_PDF_PAGE)`. -/
theorem C3_witness :
    WorkerStep (fun _ => none)
      ⟨[], [], [WStatus.pulled ((0 : Int), [5])]⟩
      ⟨[], [((0 : Int), BLANK_PDF_PAGE)], [WStatus.looping]⟩ ∧
    convertOne (fun _ => none) ((0 : Int), [5]) = ((0 : Int), BLANK_PDF_PAGE) := by
  have H := C3_one_result_per_task (fun _ => none)
    ⟨[], [], [WStatus.pulled ((0 : Int), [5])]⟩ 0 0 [5] rfl
  exact ⟨H.1, H.2.2.1 rfl⟩

/-- C4: a worker that observed a non-empty queue but whose `get_nowait`
hits the `_queue.Empty` race retries the loop (the `pullEmpty` transition
back to the loop head is the enabled one); an observing worker never
steps to `exited`; and no step makes any worker exit while the queue
still reports pending tasks. -/
theorem C4_empty_race_retries (render : Bytes → Option Bytes) (s s' : JobState)
    (w : Nat) :
    (s.workers[w]? = some .observed → s.queue = [] →
      WorkerStep render s ⟨s.queue, s.results, s.workers.set w .looping⟩) ∧
    (WorkerStep render s s' → s.workers[w]? = some .observed →
      s'.workers[w]? ≠ some .exited) ∧
    (WorkerStep render s s' → s.queue ≠ [] → s'.workers[w]? = some .exited →
      s.workers[w]? = some .exited) := by
  refine ⟨?_, ?_, ?_⟩
  · intro h hq
    exact WorkerStep.pullEmpty s w h hq
  · intro hstep hobs
    cases hstep with
    | observe v hv hq =>
      have hlt := (List.getElem?_eq_some_iff.mp hv).1
      show (s.workers.set v .observed)[w]? ≠ some WStatus.exited
      rw [getElem?_set_cases hlt]
      by_cases hvw : v = w
      · simp [hvw]
      · rw [if_neg hvw, hobs]; simp
    | exitLoop v hv hq =>
      have hlt := (List.getElem?_eq_some_iff.mp hv).1
      show (s.workers.set v .exited)[w]? ≠ some WStatus.exited
      rw [getElem?_set_cases hlt]
      by_cases hvw : v = w
      · subst hvw
        rw [hobs] at hv
        exact absurd (Option.some.inj hv) (fun hx => WStatus.noConfusion hx)
      · rw [if_neg hvw, hobs]; simp
    | pullOk v t rest hv hq =>
      have hlt := (List.getElem?_eq_some_iff.mp hv).1
      show (s.workers.set v (.pulled t))[w]? ≠ some WStatus.exited
      rw [getElem?_set_cases hlt]
      by_cases hvw : v = w
      · simp [hvw]
      · rw [if_neg hvw, hobs]; simp
    | pullEmpty v hv hq =>
      have hlt := (List.getElem?_eq_some_iff.mp hv).1
      show (s.workers.set v .looping)[w]? ≠ some WStatus.exited
      rw [getElem?_set_cases hlt]
      by_cases hvw : v = w
      · simp [hvw]
      · rw [if_neg hvw, hobs]; simp
    | work v t hv =>
      have hlt := (List.getElem?_eq_some_iff.mp hv).1
      show (s.workers.set v .looping)[w]? ≠ some WStatus.exited
      rw [getElem?_set_cases hlt]
      by_cases hvw : v = w
      · simp [hvw]
      · rw [if_neg hvw, hobs]; simp
  · intro hstep hq hex
    cases hstep with
    | observe v hv hq' =>
      have hlt := (List.getElem?_eq_some_iff.mp hv).1
      have hex' : (s.workers.set v WStatus.observed)[w]? = some WStatus.exited := hex
      rw [getElem?_set_cases hlt] at hex'
      by_cases hvw : v = w
      · rw [if_pos hvw] at hex'
        exact absurd (Option.some.inj hex') (fun hx => WStatus.noConfusion hx)
      · rwa [if_neg hvw] at hex'
    | exitLoop v hv hq' => exact absurd hq' hq
    | pullOk v t rest hv hq' =>
      have hlt := (List.getElem?_eq_some_iff.mp hv).1
      have hex' : (s.workers.set v (WStatus.pulled t))[w]? = some WStatus.exited := hex
      rw [getElem?_set_cases hlt] at hex'
      by_cases hvw : v = w
      · rw [if_pos hvw] at hex'
        exact absurd (Option.some.inj hex') (fun hx => WStatus.noConfusion hx)
      · rwa [if_neg hvw] at hex'
    | pullEmpty v hv hq' =>
      have hlt := (List.getElem?_eq_some_iff.mp hv).1
      have hex' : (s.workers.set v WStatus.looping)[w]? = some WStatus.exited := hex
      rw [getElem?_set_cases hlt] at hex'
      by_cases hvw : v = w
      · rw [if_pos hvw] at hex'
        exact absurd (Option.some.inj hex') (fun hx => WStatus.noConfusion hx)
      · rwa [if_neg hvw] at hex'
    | work v t hv =>
      have hlt := (List.getElem?_eq_some_iff.mp hv).1
      have hex' : (s.workers.set v WStatus.looping)[w]? = some WStatus.exited := hex
      rw [getElem?_set_cases hlt] at hex'
      by_cases hvw : v = w
      · rw [if_pos hvw] at hex'
        exact absurd (Option.some.inj hex') (fun hx => WStatus.noConfusion hx)
      · rwa [if_neg hvw] at hex'

/-- C4 (witness): a single worker that observed a non-empty queue, raced
and found it empty, takes the retry transition back to the loop head and
is not exited afterwards. -/
theorem C4_witness :
    WorkerStep (fun _ => none) ⟨[], [], [WStatus.observed]⟩
      ⟨[], [], [WStatus.looping]⟩ ∧
    (JobState.mk [] [] [WStatus.looping]).workers[0]? ≠ some WStatus.exited := by
  have H := C4_empty_race_retries (fun _ => none) ⟨[], [], [WStatus.observed]⟩
    ⟨[], [], [WStatus.looping]⟩ 0
  exact ⟨H.1 rfl rfl, H.2.1 (H.1 rfl rfl) rfl⟩
